import Mathlib

/-!
Shallow embedding of `pkg/repository/manifest/repo.go`: the manifest data
model (Root, Index, Snapshot, Timestamp), the bootstrap orchestrator `Init`,
and the mutators `Snapshot.SetVersions`, `Timestamp.SetSnapshot`,
`Root.SetRole`.

Modelling conventions:
- Go maps are association lists `List (String × α)`; `mapInsert` mirrors a Go
  map assignment (replace the entry if the key exists, otherwise append) and
  `mapLookup` a Go map read.  A `nil` Go map is `none`, a non-nil map is
  `some list` (the code distinguishes them: `SetVersions`, `SetSnapshot` and
  `SetRole` lazily allocate their map when it is nil).  Go map iteration
  order is unspecified; the model iterates association lists in list order.
- Time instants and durations are `Nat`; `Expires` stores
  `initTime + expire` (the RFC3339 string formatting is dropped, no claim
  depends on it).
- `json.Marshal` of a Snapshot is external to the repository, so the
  serializer is an explicit parameter `marshal : Snapshot → Except String
  (List Nat)` (bytes on success, the error otherwise); a concrete
  spec-modelled instance `demoMarshal` is provided for evaluation.
-/

namespace Manifest

/-- Modelled from the spec: the per-kind registry record is declared outside
the given source; per §2/§4.1 each kind maps to
`{filename, expire, threshold}`. -/
structure TypeInfo where
  filename : String
  expire : Nat
  threshold : Nat
deriving Repr, DecidableEq

/-- The registry table (the package-level `types` map in the source, passed
explicitly here): kind name → `TypeInfo`. -/
abbrev Registry := List (String × TypeInfo)

/-- Modelled from the spec: the kind-name constants are declared outside the
given source; §3 gives the closed kind enumeration. -/
def ManifestTypeRoot : String := "root"

def ManifestTypeIndex : String := "index"

def ManifestTypeSnapshot : String := "snapshot"

def ManifestTypeTimestamp : String := "timestamp"

def ManifestTypeComponent : String := "component"

/-- Modelled from the spec: §3 says `spec_version` is a fixed
protocol-version string; its concrete value is outside the given source. -/
def CurrentSpecVersion : String := "0.1.0"

/-- Go map read: first entry with the key, if any. -/
def mapLookup : List (String × α) → String → Option α
  | [], _ => none
  | (k', v) :: rest, k => if k' = k then some v else mapLookup rest k

/-- Go map assignment: replace the entry holding the key, else append. -/
def mapInsert : List (String × α) → String → α → List (String × α)
  | [], k, v => [(k, v)]
  | (k', v') :: rest, k, v =>
      if k' = k then (k, v) :: rest else (k', v') :: mapInsert rest k v

/-- Go map read with the zero value for a missing key (`types[ty]` yields
the zero `TypeInfo` when `ty` is absent). -/
def regGet (reg : Registry) (ty : String) : TypeInfo :=
  (mapLookup reg ty).getD ⟨"", 0, 0⟩

/-- The fields shared by every manifest payload (`SignedBase`). -/
structure SignedBase where
  Ty : String
  SpecVersion : String
  Expires : Nat
  Version : Nat
deriving Repr, DecidableEq

/-- Modelled from the spec: `Filename()` is declared outside the given
source; per §6 canonical filenames are registry-defined, so the filename of
a manifest is the registry filename of its kind. -/
def SignedBase.Filename (reg : Registry) (b : SignedBase) : String :=
  (regGet reg b.Ty).filename

/-- Public-key info of a role key (opaque here: no claim reads inside). -/
structure KeyInfo where
  body : String
deriving Repr, DecidableEq

/-- A role in the root manifest: url, threshold and key set. -/
structure Role where
  URL : String
  Threshold : Nat
  Keys : List (String × KeyInfo)
deriving Repr, DecidableEq

/-- The root manifest payload. -/
structure Root where
  Base : SignedBase
  Roles : Option (List (String × Role))
deriving Repr, DecidableEq

/-- An owner entry of the index manifest (opaque here). -/
structure Owner where
  name : String
deriving Repr, DecidableEq

/-- A component entry of the index manifest (opaque here). -/
structure Component where
  name : String
deriving Repr, DecidableEq

/-- The index manifest payload. -/
structure Index where
  Base : SignedBase
  Owners : List (String × Owner)
  Components : List (String × Component)
  DefaultComponents : List String
deriving Repr, DecidableEq

/-- A snapshot ledger entry: the recorded version of one manifest file. -/
structure FileVersion where
  Version : Nat
deriving Repr, DecidableEq

/-- The snapshot manifest payload; `Meta` is `none` while the Go map is
nil (the zero value `NewSnapshot` leaves it with). -/
structure Snapshot where
  Base : SignedBase
  Meta : Option (List (String × FileVersion))
deriving Repr, DecidableEq

/-- A timestamp ledger entry: hashes and byte length of one file. -/
structure FileHash where
  Hashes : List (String × String)
  Length : Nat
deriving Repr, DecidableEq

/-- The timestamp manifest payload; `Meta` as in `Snapshot`. -/
structure Timestamp where
  Base : SignedBase
  Meta : Option (List (String × FileHash))
deriving Repr, DecidableEq

/-- The closed variant of manifest payloads (the `ValidManifest` interface
of the source, realized over exactly the four bootstrap kinds). -/
inductive ValidManifest where
  | root : Root → ValidManifest
  | index : Index → ValidManifest
  | snapshot : Snapshot → ValidManifest
  | timestamp : Timestamp → ValidManifest
deriving Repr, DecidableEq

/-- Interface method `Base()`: the shared `SignedBase` of a payload. -/
def ValidManifest.Base : ValidManifest → SignedBase
  | .root r => r.Base
  | .index i => i.Base
  | .snapshot s => s.Base
  | .timestamp t => t.Base

/-- Interface method `Filename()`: registry filename of the payload kind. -/
def ValidManifest.Filename (reg : Registry) (m : ValidManifest) : String :=
  m.Base.Filename reg

/-- Constructor `NewRoot`: root at version 1 with an allocated empty role map. -/
def NewRoot (reg : Registry) (initTime : Nat) : Root :=
  { Base := { Ty := ManifestTypeRoot, SpecVersion := CurrentSpecVersion,
              Expires := initTime + (regGet reg ManifestTypeRoot).expire,
              Version := 1 },
    Roles := some [] }

/-- Constructor `NewIndex`: index at version 1 with empty collections. -/
def NewIndex (reg : Registry) (initTime : Nat) : Index :=
  { Base := { Ty := ManifestTypeIndex, SpecVersion := CurrentSpecVersion,
              Expires := initTime + (regGet reg ManifestTypeIndex).expire,
              Version := 1 },
    Owners := [], Components := [], DefaultComponents := [] }

/-- Constructor `NewSnapshot`: snapshot fixed at version 0, `Meta` still nil. -/
def NewSnapshot (reg : Registry) (initTime : Nat) : Snapshot :=
  { Base := { Ty := ManifestTypeSnapshot, SpecVersion := CurrentSpecVersion,
              Expires := initTime + (regGet reg ManifestTypeSnapshot).expire,
              Version := 0 },
    Meta := none }

/-- Constructor `NewTimestamp`: timestamp at version 1, `Meta` still nil. -/
def NewTimestamp (reg : Registry) (initTime : Nat) : Timestamp :=
  { Base := { Ty := ManifestTypeTimestamp, SpecVersion := CurrentSpecVersion,
              Expires := initTime + (regGet reg ManifestTypeTimestamp).expire,
              Version := 1 },
    Meta := none }

/-- The `for _, m := range manifestList` body of `SetVersions`: record
`{version: m.Base().Version}` under `m.Filename()`. -/
def setVersionsLoop (reg : Registry) (meta : List (String × FileVersion)) :
    List (String × ValidManifest) → List (String × FileVersion)
  | [] => meta
  | (_, m) :: rest =>
      setVersionsLoop reg (mapInsert meta (m.Filename reg) ⟨m.Base.Version⟩) rest

/-- Mutator `Snapshot.SetVersions`: allocate `Meta` if nil, then insert one entry
per manifest of the list (existing entries under other keys are kept). -/
def Snapshot.SetVersions (reg : Registry) (manifest : Snapshot)
    (manifestList : List (String × ValidManifest)) : Snapshot :=
  { manifest with Meta := some (setVersionsLoop reg (manifest.Meta.getD []) manifestList) }

/-- Mutator `Timestamp.SetSnapshot`: marshal the snapshot; on failure return the
receiver unchanged together with the error; on success allocate `Meta` if
nil and record `{hashes: {"sha256": "TODO"}, length: len(bytes)}` under the
snapshot's filename (the hash is the source's placeholder). -/
def Timestamp.SetSnapshot (marshal : Snapshot → Except String (List Nat))
    (reg : Registry) (manifest : Timestamp) (s : Snapshot) :
    Timestamp × Option String :=
  match marshal s with
  | .error e => (manifest, some e)
  | .ok bytes =>
      ({ manifest with
          Meta := some (mapInsert (manifest.Meta.getD []) (s.Base.Filename reg)
            ⟨[("sha256", "TODO")], bytes.length⟩) }, none)

/-- Mutator `Root.SetRole`: allocate `Roles` if nil, then install under the
argument's kind a role with url `"/" + filename`, the registry threshold
for that kind, and a freshly allocated empty key map. -/
def Root.SetRole (reg : Registry) (manifest : Root) (m : ValidManifest) : Root :=
  { manifest with
      Roles := some (mapInsert (manifest.Roles.getD []) m.Base.Ty
        ⟨"/" ++ m.Filename reg, (regGet reg m.Base.Ty).threshold, []⟩) }

/-- The error message `Init` builds for a registry kind that has no entity
in the manifest map (spelling as in the source). -/
def initErrMsg (ty : String) : String :=
  "manifest \x27" ++ ty ++ "\x27 not initialized porperly"

/-- The `for ty, val := range types` loop of `Init`.  In the source the root
being populated is the same object as the map's `"root"` entry; since
`SetRole` reads only its argument's kind and filename — identical in the
frozen map and in the threaded root — the model looks arguments up in the
map as built before the loop and threads the root separately.  Go map
iteration order is unspecified; the model walks the registry in list
order. -/
def initLoop (reg : Registry) (manifests : List (String × ValidManifest))
    (root : Root) : List (String × TypeInfo) → Except String Root
  | [] => .ok root
  | (ty, val) :: rest =>
      if val.filename = "" then initLoop reg manifests root rest
      else
        match mapLookup manifests ty with
        | some m => initLoop reg manifests (root.SetRole reg m) rest
        | none => .error (initErrMsg ty)

/-- Modelled from the spec: `batchSaveManifests` is declared outside the
given source; §4.6/§5 say it persists the full manifest set as one batch.
Modelled as returning the persisted set. -/
def batchSaveManifests (manifests : List (String × ValidManifest)) :
    Except String (List (String × ValidManifest)) :=
  .ok manifests

/-- The manifest map of `Init` after the root and index assignments. -/
def initManifests2 (reg : Registry) (initTime : Nat) : List (String × ValidManifest) :=
  mapInsert (mapInsert [] ManifestTypeRoot (ValidManifest.root (NewRoot reg initTime)))
    ManifestTypeIndex (ValidManifest.index (NewIndex reg initTime))

/-- The snapshot built by `Init`.  Note the Go evaluation order of
`manifests[ManifestTypeSnapshot] = NewSnapshot(initTime).SetVersions(manifests)`:
the right-hand side runs on the map before the assignment, so `SetVersions`
sees only the root and index entries, not the snapshot itself. -/
def initSnap (reg : Registry) (initTime : Nat) : Snapshot :=
  (NewSnapshot reg initTime).SetVersions reg (initManifests2 reg initTime)

/-- The manifest map of `Init` after the snapshot assignment. -/
def initManifests3 (reg : Registry) (initTime : Nat) : List (String × ValidManifest) :=
  mapInsert (initManifests2 reg initTime) ManifestTypeSnapshot
    (ValidManifest.snapshot (initSnap reg initTime))

/-- The manifest map of `Init` after the timestamp assignment. -/
def initManifests4 (reg : Registry) (initTime : Nat) (timestamp : Timestamp) :
    List (String × ValidManifest) :=
  mapInsert (initManifests3 reg initTime) ManifestTypeTimestamp
    (ValidManifest.timestamp timestamp)

/-- Orchestrator `Init`, composed of the stages above in source order.  On
success the persisted manifest set is returned; on error nothing is
persisted (`batchSaveManifests` is only reached in the final branch). -/
def Init (marshal : Snapshot → Except String (List Nat)) (reg : Registry)
    (initTime : Nat) : Except String (List (String × ValidManifest)) :=
  match (NewTimestamp reg initTime).SetSnapshot marshal reg (initSnap reg initTime) with
  | (_, some e) => .error e
  | (timestamp, none) =>
      match initLoop reg (initManifests4 reg initTime timestamp) (NewRoot reg initTime) reg with
      | .error e => .error e
      | .ok root =>
          batchSaveManifests
            (mapInsert (initManifests4 reg initTime timestamp) ManifestTypeRoot
              (ValidManifest.root root))

/-- Modelled from the spec: a representative registry table (§2/§6 give the
four kinds and canonical filenames; Component has no filename and is
skipped; thresholds and expiry durations are representative values). -/
def demoTypes : Registry :=
  [ (ManifestTypeRoot, ⟨"root.json", 1000, 1⟩),
    (ManifestTypeIndex, ⟨"index.json", 1000, 1⟩),
    (ManifestTypeSnapshot, ⟨"snapshot.json", 1000, 1⟩),
    (ManifestTypeTimestamp, ⟨"timestamp.json", 1000, 1⟩),
    (ManifestTypeComponent, ⟨"", 0, 0⟩) ]

/-- JSON string literal (field values here never need escaping). -/
def jsonStr (s : String) : String := "\"" ++ s ++ "\""

/-- JSON object body for a snapshot `meta` map, in ledger order. -/
def jsonMetaEntries : List (String × FileVersion) → String
  | [] => ""
  | [(k, v)] => jsonStr k ++ ":\x7b\"version\":" ++ toString v.Version ++ "\x7d"
  | (k, v) :: rest =>
      jsonStr k ++ ":\x7b\"version\":" ++ toString v.Version ++ "\x7d,"
        ++ jsonMetaEntries rest

/-- Modelled from the spec: a canonical JSON serialization of a snapshot
payload following the §6 file format (deterministic, no insignificant
whitespace); the exact byte layout of Go's encoder is not given, only
determinism and content-dependence matter here. -/
def Snapshot.marshalJson (s : Snapshot) : String :=
  "\x7b\"_type\":" ++ jsonStr s.Base.Ty
    ++ ",\"spec_version\":" ++ jsonStr s.Base.SpecVersion
    ++ ",\"expires\":" ++ toString s.Base.Expires
    ++ ",\"version\":" ++ toString s.Base.Version
    ++ ",\"meta\":\x7b" ++ jsonMetaEntries (s.Meta.getD []) ++ "\x7d\x7d"

/-- A concrete total serializer: the canonical JSON bytes of a snapshot. -/
def demoMarshal (s : Snapshot) : Except String (List Nat) :=
  .ok (s.marshalJson.toList.map Char.toNat)

/-- A serializer that always fails, to exercise the error path. -/
def failMarshal : Snapshot → Except String (List Nat) :=
  fun _ => .error "cannot encode"

/-- Number of entries of an association list holding a given key. -/
def countKey : List (String × α) → String → Nat
  | [], _ => 0
  | (k', _) :: rest, k => (if k' = k then 1 else 0) + countKey rest k

/-- A snapshot whose ledger already holds a stale entry, to exercise
`SetVersions` on a non-empty prior state. -/
def staleSnapshot : Snapshot :=
  { Base := { Ty := ManifestTypeSnapshot, SpecVersion := CurrentSpecVersion,
              Expires := 0, Version := 0 },
    Meta := some [("stale.json", ⟨7⟩)] }

/-- An index payload wrapped as an interface value, for concrete runs. -/
def demoIndexManifest : ValidManifest :=
  ValidManifest.index (NewIndex demoTypes 0)

/-- The demo bootstrap run: `Init` over the demo registry at time 0. -/
def demoInit : Except String (List (String × ValidManifest)) :=
  Init demoMarshal demoTypes 0

/-- The manifest set persisted by the demo bootstrap run. -/
def demoManifests : List (String × ValidManifest) :=
  demoInit.toOption.getD []

/-- The snapshot of the demo bootstrap run (fallback arm is unreachable on
the demo input). -/
def demoSnap : Snapshot :=
  match mapLookup demoManifests ManifestTypeSnapshot with
  | some (.snapshot s) => s
  | _ => NewSnapshot demoTypes 0

/-- The timestamp of the demo bootstrap run (fallback arm is unreachable on
the demo input). -/
def demoTs : Timestamp :=
  match mapLookup demoManifests ManifestTypeTimestamp with
  | some (.timestamp t) => t
  | _ => NewTimestamp demoTypes 0

/-- The demo index with its version bumped from 1 to 2. -/
def demoIndex2 : Index :=
  { NewIndex demoTypes 0 with
      Base := { (NewIndex demoTypes 0).Base with Version := 2 } }

/-- The demo manifest set with the bumped index swapped in. -/
def demoManifestsBumped : List (String × ValidManifest) :=
  mapInsert demoManifests ManifestTypeIndex (ValidManifest.index demoIndex2)

/-- The demo snapshot rebuilt over the bumped manifest set. -/
def demoSnap1 : Snapshot :=
  demoSnap.SetVersions demoTypes demoManifestsBumped

/-- The demo timestamp after re-running `SetSnapshot` on the rebuilt
snapshot. -/
def demoTs1 : Timestamp :=
  (demoTs.SetSnapshot demoMarshal demoTypes demoSnap1).1

/-- A root whose role entry for the snapshot kind already has a key
populated, to exercise `SetRole` overwriting. -/
def demoRootWithKeys : Root :=
  { NewRoot demoTypes 0 with
      Roles := some [(ManifestTypeSnapshot,
        ⟨"/snapshot.json", 1, [("key-1", ⟨"pub"⟩)]⟩)] }

/-- The timestamp value `Init` ends up holding when serializing the
bootstrap snapshot yields the bytes `bs` (expressed through `SetSnapshot`
itself, applied to a serializer that returns exactly those bytes). -/
def initTs (reg : Registry) (t : Nat) (bs : List Nat) : Timestamp :=
  ((NewTimestamp reg t).SetSnapshot (fun _ => .ok bs) reg (initSnap reg t)).1

/-! Association-list lemmas: `mapInsert` / `mapLookup` behave like a Go map
assignment and read. -/

theorem mapLookup_mapInsert (l : List (String × α)) (k k' : String) (v : α) :
    mapLookup (mapInsert l k v) k' = if k = k' then some v else mapLookup l k' := by
  induction l with
  | nil => simp [mapInsert, mapLookup]
  | cons hd tl ih =>
      obtain ⟨a, b⟩ := hd
      by_cases hak : a = k
      · subst hak
        by_cases hk' : a = k' <;> simp [mapInsert, mapLookup, hk']
      · by_cases hk' : a = k'
        · subst hk'
          have : ¬ k = a := fun h => hak h.symm
          simp [mapInsert, mapLookup, hak, this]
        · simp [mapInsert, mapLookup, hak, hk', ih]

theorem mapLookup_mapInsert_self (l : List (String × α)) (k : String) (v : α) :
    mapLookup (mapInsert l k v) k = some v := by
  simp [mapLookup_mapInsert]

theorem mapLookup_mapInsert_ne (l : List (String × α)) (k k' : String) (v : α)
    (h : k ≠ k') :
    mapLookup (mapInsert l k v) k' = mapLookup l k' := by
  simp [mapLookup_mapInsert, h]

theorem mapInsert_mapInsert (l : List (String × α)) (k : String) (v w : α) :
    mapInsert (mapInsert l k v) k w = mapInsert l k w := by
  induction l with
  | nil => simp [mapInsert]
  | cons hd tl ih =>
      obtain ⟨a, b⟩ := hd
      by_cases hak : a = k <;> simp [mapInsert, hak, ih]

theorem keys_mapInsert (l : List (String × α)) (k : String) (v : α) :
    (mapInsert l k v).map Prod.fst =
      if k ∈ l.map Prod.fst then l.map Prod.fst else l.map Prod.fst ++ [k] := by
  induction l with
  | nil => simp [mapInsert]
  | cons hd tl ih =>
      obtain ⟨a, b⟩ := hd
      by_cases hak : a = k
      · subst hak
        simp [mapInsert]
      · by_cases hmem : k ∈ tl.map Prod.fst <;>
          simp [mapInsert, hak, hmem, ih, Ne.symm hak]

theorem nodup_keys_mapInsert (l : List (String × α)) (k : String) (v : α)
    (h : (l.map Prod.fst).Nodup) :
    ((mapInsert l k v).map Prod.fst).Nodup := by
  rw [keys_mapInsert]
  by_cases hmem : k ∈ l.map Prod.fst
  · simpa [hmem] using h
  · have hdj : (l.map Prod.fst).Disjoint [k] := by
      intro a ha hak
      rw [List.mem_singleton] at hak
      exact hmem (hak ▸ ha)
    simpa [hmem] using h.append (List.nodup_singleton k) hdj

theorem mem_mapInsert (l : List (String × α)) (k : String) (v : α)
    (p : String × α) (h : p ∈ mapInsert l k v) : p = (k, v) ∨ p ∈ l := by
  induction l with
  | nil => simpa [mapInsert] using h
  | cons hd tl ih =>
      obtain ⟨a, b⟩ := hd
      by_cases hak : a = k
      · subst hak
        rcases (by simpa [mapInsert] using h : p = (a, v) ∨ p ∈ tl) with h' | h'
        · exact Or.inl h'
        · exact Or.inr (List.mem_cons_of_mem _ h')
      · rcases (by simpa [mapInsert, hak] using h : p = (a, b) ∨ p ∈ mapInsert tl k v)
          with h' | h'
        · exact Or.inr (by simp [h'])
        · rcases ih h' with h'' | h''
          · exact Or.inl h''
          · exact Or.inr (List.mem_cons_of_mem _ h'')

theorem mapLookup_mem (l : List (String × α)) (k : String) (v : α)
    (h : mapLookup l k = some v) : (k, v) ∈ l := by
  induction l with
  | nil => simp [mapLookup] at h
  | cons hd tl ih =>
      obtain ⟨a, b⟩ := hd
      by_cases hak : a = k
      · subst hak
        simp [mapLookup] at h
        simp [h]
      · simp [mapLookup, hak] at h
        exact List.mem_cons_of_mem _ (ih h)

theorem mapLookup_of_mem_nodup (l : List (String × α)) (k : String) (v : α)
    (hmem : (k, v) ∈ l) (hnd : (l.map Prod.fst).Nodup) :
    mapLookup l k = some v := by
  induction l with
  | nil => simp at hmem
  | cons hd tl ih =>
      obtain ⟨a, b⟩ := hd
      rw [List.map_cons, List.nodup_cons] at hnd
      rcases List.mem_cons.mp hmem with h | h
      · obtain ⟨rfl, rfl⟩ : k = a ∧ v = b :=
          ⟨congrArg Prod.fst h, congrArg Prod.snd h⟩
        simp [mapLookup]
      · have hak : a ≠ k := by
          rintro rfl
          exact hnd.1 (by simpa using List.mem_map_of_mem Prod.fst h)
        simp only [mapLookup, if_neg hak]
        exact ih h hnd.2

theorem countKey_eq_zero_of_not_mem (l : List (String × α)) (k : String)
    (h : k ∉ l.map Prod.fst) : countKey l k = 0 := by
  induction l with
  | nil => rfl
  | cons hd tl ih =>
      obtain ⟨a, b⟩ := hd
      have h1 : ¬ a = k := fun hh => h (by simp [hh])
      have h2 : k ∉ tl.map Prod.fst := fun hh => h (by simp [hh])
      simp [countKey, h1, ih h2]

theorem countKey_mapInsert (l : List (String × α)) (k : String) (v : α)
    (hnd : (l.map Prod.fst).Nodup) : countKey (mapInsert l k v) k = 1 := by
  induction l with
  | nil => simp [mapInsert, countKey]
  | cons hd tl ih =>
      obtain ⟨a, b⟩ := hd
      rw [List.map_cons, List.nodup_cons] at hnd
      by_cases hak : a = k
      · subst hak
        simp [mapInsert, countKey, countKey_eq_zero_of_not_mem tl a hnd.1]
      · simp [mapInsert, countKey, hak, ih hnd.2]

/-! Lemmas about the `SetVersions` loop. -/

theorem setVersionsLoop_lookup_not_mem (reg : Registry)
    (ms : List (String × ValidManifest)) :
    ∀ meta k, k ∉ ms.map (fun p => p.2.Filename reg) →
      mapLookup (setVersionsLoop reg meta ms) k = mapLookup meta k := by
  induction ms with
  | nil => intro meta k _; rfl
  | cons hd tl ih =>
      intro meta k h
      obtain ⟨ty, m⟩ := hd
      have h1 : m.Filename reg ≠ k := fun hh => h (by simp [hh])
      have h2 : k ∉ tl.map (fun p => p.2.Filename reg) := fun hh => h (by simp [hh])
      rw [setVersionsLoop, ih _ _ h2, mapLookup_mapInsert_ne _ _ _ _ h1]

theorem setVersionsLoop_lookup_mem (reg : Registry)
    (ms : List (String × ValidManifest)) :
    ∀ meta ty m, (ty, m) ∈ ms →
      (ms.map (fun p => p.2.Filename reg)).Nodup →
      mapLookup (setVersionsLoop reg meta ms) (m.Filename reg)
        = some ⟨m.Base.Version⟩ := by
  induction ms with
  | nil => intro meta ty m h _; simp at h
  | cons hd tl ih =>
      intro meta ty m hmem hnd
      obtain ⟨ty', m'⟩ := hd
      rw [List.map_cons, List.nodup_cons] at hnd
      rcases List.mem_cons.mp hmem with h | h
      · obtain ⟨rfl, rfl⟩ : ty = ty' ∧ m = m' :=
          ⟨congrArg Prod.fst h, congrArg Prod.snd h⟩
        rw [setVersionsLoop, setVersionsLoop_lookup_not_mem reg tl _ _ hnd.1]
        exact mapLookup_mapInsert_self ..
      · exact ih _ ty m h hnd.2

theorem setVersionsLoop_keys_nodup (reg : Registry)
    (ms : List (String × ValidManifest)) :
    ∀ meta, (meta.map Prod.fst).Nodup →
      ((setVersionsLoop reg meta ms).map Prod.fst).Nodup := by
  induction ms with
  | nil => intro meta h; exact h
  | cons hd tl ih =>
      intro meta h
      obtain ⟨ty, m⟩ := hd
      exact ih _ (nodup_keys_mapInsert _ _ _ h)

/-- C1 (amended): for every snapshot, prior ledger state and manifest list
(with pairwise-distinct filenames), `SetVersions` leaves `meta` holding one
entry per listed manifest, keyed by its filename and recording its version
field, while every prior ledger entry whose key is not one of those
filenames survives unchanged — merge semantics, not full replacement — and
the ledger keys stay duplicate-free. -/
theorem C1_setVersions_records_and_merges (reg : Registry) (s : Snapshot)
    (ms : List (String × ValidManifest))
    (hfn : (ms.map (fun p => p.2.Filename reg)).Nodup)
    (hmeta : ((s.Meta.getD []).map Prod.fst).Nodup) :
    (∀ ty m, (ty, m) ∈ ms →
        mapLookup ((s.SetVersions reg ms).Meta.getD []) (m.Filename reg)
          = some ⟨m.Base.Version⟩)
    ∧ (∀ k, k ∉ ms.map (fun p => p.2.Filename reg) →
        mapLookup ((s.SetVersions reg ms).Meta.getD []) k
          = mapLookup (s.Meta.getD []) k)
    ∧ (((s.SetVersions reg ms).Meta.getD []).map Prod.fst).Nodup := by
  have hsv : (s.SetVersions reg ms).Meta.getD []
      = setVersionsLoop reg (s.Meta.getD []) ms := rfl
  refine ⟨?_, ?_, ?_⟩
  · intro ty m hm
    rw [hsv]
    exact setVersionsLoop_lookup_mem reg ms _ ty m hm hfn
  · intro k hk
    rw [hsv]
    exact setVersionsLoop_lookup_not_mem reg ms _ k hk
  · rw [hsv]
    exact setVersionsLoop_keys_nodup reg ms _ hmeta

/-- C1 (counterexample): on a snapshot whose ledger holds a stale entry,
`SetVersions` over the empty manifest list keeps that entry, so the claim
that no entry survives from the prior ledger state (full replacement) is
false at this input. -/
theorem C1_counterexample :
    (staleSnapshot.SetVersions demoTypes []).Meta = some [("stale.json", ⟨7⟩)]
      ∧ (staleSnapshot.SetVersions demoTypes []).Meta ≠ some [] := by
  refine ⟨rfl, ?_⟩
  decide

/-- C1 (witness): the amended theorem applied at a concrete snapshot with a
stale ledger entry and a one-manifest list. -/
theorem C1_setVersions_records_and_merges_witness :
    (([("index", demoIndexManifest)].map
        (fun p => p.2.Filename demoTypes)).Nodup
      ∧ ((staleSnapshot.Meta.getD []).map Prod.fst).Nodup)
    ∧ mapLookup ((staleSnapshot.SetVersions demoTypes
          [("index", demoIndexManifest)]).Meta.getD [])
        (demoIndexManifest.Filename demoTypes) = some ⟨1⟩
    ∧ mapLookup ((staleSnapshot.SetVersions demoTypes
          [("index", demoIndexManifest)]).Meta.getD []) "stale.json"
        = mapLookup (staleSnapshot.Meta.getD []) "stale.json" :=
  ⟨⟨by decide, by decide⟩,
   (C1_setVersions_records_and_merges demoTypes staleSnapshot
        [("index", demoIndexManifest)] (by decide) (by decide)).1
      "index" demoIndexManifest (by decide),
   (C1_setVersions_records_and_merges demoTypes staleSnapshot
        [("index", demoIndexManifest)] (by decide) (by decide)).2.1
      "stale.json" (by decide)⟩

/-- C7: whenever serializing the snapshot fails, `SetSnapshot` returns the
serialization error together with the receiver exactly as it was — in
particular its `meta` map is untouched. -/
theorem C7_setSnapshot_error_no_mutation
    (marshal : Snapshot → Except String (List Nat)) (reg : Registry)
    (ts : Timestamp) (s : Snapshot) (e : String)
    (h : marshal s = .error e) :
    ts.SetSnapshot marshal reg s = (ts, some e) := by
  unfold Timestamp.SetSnapshot
  rw [h]

/-- C7 (witness): the theorem applied to a failing serializer and the demo
timestamp, whose `meta` is non-empty and survives unchanged. -/
theorem C7_setSnapshot_error_no_mutation_witness :
    failMarshal staleSnapshot = .error "cannot encode"
    ∧ demoTs.SetSnapshot failMarshal demoTypes staleSnapshot
        = (demoTs, some "cannot encode") :=
  ⟨rfl, C7_setSnapshot_error_no_mutation failMarshal demoTypes demoTs
      staleSnapshot "cannot encode" rfl⟩

/-- C8: `SetRole` is idempotent per kind — two calls with manifests of the
same kind produce the same root as the single second call, and exactly one
role entry is keyed by that kind afterwards. -/
theorem C8_setRole_idempotent (reg : Registry) (r : Root)
    (m₁ m₂ : ValidManifest) (hty : m₁.Base.Ty = m₂.Base.Ty)
    (hnd : ((r.Roles.getD []).map Prod.fst).Nodup) :
    (r.SetRole reg m₁).SetRole reg m₂ = r.SetRole reg m₂
    ∧ countKey (((r.SetRole reg m₁).SetRole reg m₂).Roles.getD [])
        m₂.Base.Ty = 1 := by
  constructor
  · simp only [Root.SetRole, Option.getD_some, hty, mapInsert_mapInsert]
  · simp only [Root.SetRole, Option.getD_some, hty, mapInsert_mapInsert]
    exact countKey_mapInsert _ _ _ hnd

/-- C8 (witness): the theorem applied to a root that already holds a
populated role entry and two distinct snapshot-kind manifests. -/
theorem C8_setRole_idempotent_witness :
    ((ValidManifest.snapshot (NewSnapshot demoTypes 0)).Base.Ty
        = (ValidManifest.snapshot staleSnapshot).Base.Ty
      ∧ ((demoRootWithKeys.Roles.getD []).map Prod.fst).Nodup)
    ∧ ((demoRootWithKeys.SetRole demoTypes
          (ValidManifest.snapshot (NewSnapshot demoTypes 0))).SetRole demoTypes
          (ValidManifest.snapshot staleSnapshot)
        = demoRootWithKeys.SetRole demoTypes (ValidManifest.snapshot staleSnapshot)
      ∧ countKey (((demoRootWithKeys.SetRole demoTypes
            (ValidManifest.snapshot (NewSnapshot demoTypes 0))).SetRole demoTypes
            (ValidManifest.snapshot staleSnapshot)).Roles.getD [])
          (ValidManifest.snapshot staleSnapshot).Base.Ty = 1) :=
  ⟨⟨rfl, by decide⟩,
   C8_setRole_idempotent demoTypes demoRootWithKeys
     (ValidManifest.snapshot (NewSnapshot demoTypes 0))
     (ValidManifest.snapshot staleSnapshot) rfl (by decide)⟩

/-- C10: `SetRole` unconditionally installs, under the argument's kind, a
role whose key set is a freshly created empty map — whatever keys a prior
role entry for that kind held are silently discarded. -/
theorem C10_setRole_installs_empty_keys (reg : Registry) (r : Root)
    (m : ValidManifest) :
    mapLookup ((r.SetRole reg m).Roles.getD []) m.Base.Ty
      = some ⟨"/" ++ m.Filename reg, (regGet reg m.Base.Ty).threshold, []⟩ :=
  mapLookup_mapInsert_self ..

/-! Lemmas about the bootstrap stages and the registry loop. -/

theorem regGet_eq_of_mem_nodup (reg : Registry) (k : String) (info : TypeInfo)
    (hmem : (k, info) ∈ reg) (hnd : (reg.map Prod.fst).Nodup) :
    regGet reg k = info := by
  unfold regGet
  rw [mapLookup_of_mem_nodup reg k info hmem hnd]
  rfl

theorem initManifests4_eq (reg : Registry) (t : Nat) (ts : Timestamp) :
    initManifests4 reg t ts =
      [(ManifestTypeRoot, ValidManifest.root (NewRoot reg t)),
       (ManifestTypeIndex, ValidManifest.index (NewIndex reg t)),
       (ManifestTypeSnapshot, ValidManifest.snapshot (initSnap reg t)),
       (ManifestTypeTimestamp, ValidManifest.timestamp ts)] := rfl

theorem initManifests4_ty (reg : Registry) (t : Nat) (ts : Timestamp)
    (hts : ts.Base.Ty = ManifestTypeTimestamp) :
    ∀ p ∈ initManifests4 reg t ts, p.2.Base.Ty = p.1 := by
  rw [initManifests4_eq]
  intro p hp
  rcases List.mem_cons.mp hp with h | hp
  · subst h; rfl
  rcases List.mem_cons.mp hp with h | hp
  · subst h; rfl
  rcases List.mem_cons.mp hp with h | hp
  · subst h; rfl
  rcases List.mem_cons.mp hp with h | hp
  · subst h; exact hts
  · simp at hp

theorem initManifests4_lookup_isSome (reg : Registry) (t : Nat) (ts : Timestamp)
    (k : String)
    (h : k = ManifestTypeRoot ∨ k = ManifestTypeIndex ∨ k = ManifestTypeSnapshot
      ∨ k = ManifestTypeTimestamp) :
    (mapLookup (initManifests4 reg t ts) k).isSome = true := by
  rcases h with rfl | rfl | rfl | rfl <;> rfl

theorem initManifests4_lookup_none (reg : Registry) (t : Nat) (ts : Timestamp)
    (k : String)
    (h1 : k ≠ ManifestTypeRoot) (h2 : k ≠ ManifestTypeIndex)
    (h3 : k ≠ ManifestTypeSnapshot) (h4 : k ≠ ManifestTypeTimestamp) :
    mapLookup (initManifests4 reg t ts) k = none := by
  rw [initManifests4_eq]
  have g1 : ¬ ManifestTypeRoot = k := fun hh => h1 hh.symm
  have g2 : ¬ ManifestTypeIndex = k := fun hh => h2 hh.symm
  have g3 : ¬ ManifestTypeSnapshot = k := fun hh => h3 hh.symm
  have g4 : ¬ ManifestTypeTimestamp = k := fun hh => h4 hh.symm
  simp [mapLookup, g1, g2, g3, g4]

theorem initLoop_base (reg : Registry) (manifests : List (String × ValidManifest)) :
    ∀ rest root root', initLoop reg manifests root rest = .ok root' →
      root'.Base = root.Base := by
  intro rest
  induction rest with
  | nil =>
      intro root root' h
      simp [initLoop] at h
      rw [h]
  | cons hd tl ih =>
      intro root root' h
      obtain ⟨ty, val⟩ := hd
      rw [initLoop] at h
      split at h
      case isTrue => exact ih root root' h
      case isFalse =>
        split at h
        next m heq => exact ih (root.SetRole reg m) root' h
        next => simp at h

theorem initLoop_lookup_not_mem (reg : Registry)
    (manifests : List (String × ValidManifest))
    (hty : ∀ p ∈ manifests, p.2.Base.Ty = p.1) :
    ∀ rest root root', initLoop reg manifests root rest = .ok root' →
      ∀ k, k ∉ rest.map Prod.fst →
        mapLookup (root'.Roles.getD []) k = mapLookup (root.Roles.getD []) k := by
  intro rest
  induction rest with
  | nil =>
      intro root root' h k _
      simp [initLoop] at h
      rw [h]
  | cons hd tl ih =>
      intro root root' h k hk
      obtain ⟨ty, val⟩ := hd
      have hkty : k ≠ ty := fun hh => hk (by simp [hh])
      have hktl : k ∉ tl.map Prod.fst := fun hh => hk (by simp [hh])
      rw [initLoop] at h
      split at h
      case isTrue => exact ih root root' h k hktl
      case isFalse =>
        split at h
        next m heq =>
          rw [ih (root.SetRole reg m) root' h k hktl]
          have hmty : m.Base.Ty = ty := hty (ty, m) (mapLookup_mem _ _ _ heq)
          show mapLookup (mapInsert (root.Roles.getD []) m.Base.Ty _) k = _
          rw [mapLookup_mapInsert_ne _ _ _ _ (by rw [hmty]; exact fun hh => hkty hh.symm)]
        next => simp at h

theorem initLoop_lookup_mem (reg : Registry)
    (manifests : List (String × ValidManifest))
    (hty : ∀ p ∈ manifests, p.2.Base.Ty = p.1) :
    ∀ rest root root', initLoop reg manifests root rest = .ok root' →
      (rest.map Prod.fst).Nodup →
      ∀ k info, (k, info) ∈ rest → info.filename ≠ "" →
        mapLookup (root'.Roles.getD []) k
          = some ⟨"/" ++ (regGet reg k).filename, (regGet reg k).threshold, []⟩ := by
  intro rest
  induction rest with
  | nil =>
      intro root root' _ _ k info hmem _
      simp at hmem
  | cons hd tl ih =>
      intro root root' h hnd k info hmem hfn
      obtain ⟨ty, val⟩ := hd
      rw [List.map_cons, List.nodup_cons] at hnd
      rw [initLoop] at h
      split at h
      case isTrue hempty =>
        rcases List.mem_cons.mp hmem with hh | hh
        · obtain ⟨rfl, rfl⟩ : k = ty ∧ info = val :=
            ⟨congrArg Prod.fst hh, congrArg Prod.snd hh⟩
          exact absurd hempty hfn
        · exact ih root root' h hnd.2 k info hh hfn
      case isFalse =>
        split at h
        next m heq =>
          have hmty : m.Base.Ty = ty := hty (ty, m) (mapLookup_mem _ _ _ heq)
          rcases List.mem_cons.mp hmem with hh | hh
          · have hkty : k = ty := congrArg Prod.fst hh
            subst hkty
            rw [initLoop_lookup_not_mem reg manifests hty tl
              (root.SetRole reg m) root' h k hnd.1]
            have hfn2 : m.Filename reg = (regGet reg k).filename := by
              show (regGet reg m.Base.Ty).filename = (regGet reg k).filename
              rw [hmty]
            simp only [Root.SetRole, Option.getD_some]
            rw [hmty, mapLookup_mapInsert_self, hfn2]
          · exact ih (root.SetRole reg m) root' h hnd.2 k info hh hfn
        next => simp at h

theorem initLoop_roles_subset (reg : Registry)
    (manifests : List (String × ValidManifest))
    (hty : ∀ p ∈ manifests, p.2.Base.Ty = p.1) :
    ∀ rest root root', initLoop reg manifests root rest = .ok root' →
      ∀ p ∈ root'.Roles.getD [], p ∈ root.Roles.getD []
        ∨ ∃ info, (p.1, info) ∈ rest ∧ info.filename ≠ "" := by
  intro rest
  induction rest with
  | nil =>
      intro root root' h p hp
      simp [initLoop] at h
      subst h
      exact Or.inl hp
  | cons hd tl ih =>
      intro root root' h p hp
      obtain ⟨ty, val⟩ := hd
      rw [initLoop] at h
      split at h
      case isTrue =>
        rcases ih root root' h p hp with hin | ⟨info, hmem, hfn⟩
        · exact Or.inl hin
        · exact Or.inr ⟨info, List.mem_cons_of_mem _ hmem, hfn⟩
      case isFalse hempty =>
        split at h
        next m heq =>
          rcases ih (root.SetRole reg m) root' h p hp with hin | ⟨info, hmem, hfn⟩
          · rcases mem_mapInsert _ _ _ _ hin with hh | hh
            · refine Or.inr ⟨val, ?_, hempty⟩
              have hmty : m.Base.Ty = ty := hty (ty, m) (mapLookup_mem _ _ _ heq)
              have hp1 : p.1 = ty := by rw [hh, hmty]
              rw [hp1]
              exact List.mem_cons_self _ _
            · exact Or.inl hh
          · exact Or.inr ⟨info, List.mem_cons_of_mem _ hmem, hfn⟩
        next => simp at h

theorem initLoop_roles_nodup (reg : Registry)
    (manifests : List (String × ValidManifest)) :
    ∀ rest root root', initLoop reg manifests root rest = .ok root' →
      ((root.Roles.getD []).map Prod.fst).Nodup →
      ((root'.Roles.getD []).map Prod.fst).Nodup := by
  intro rest
  induction rest with
  | nil =>
      intro root root' h hnd
      simp [initLoop] at h
      rw [h] at hnd
      exact hnd
  | cons hd tl ih =>
      intro root root' h hnd
      obtain ⟨ty, val⟩ := hd
      rw [initLoop] at h
      split at h
      case isTrue => exact ih root root' h hnd
      case isFalse =>
        split at h
        next m heq =>
          exact ih (root.SetRole reg m) root' h (nodup_keys_mapInsert _ _ _ hnd)
        next => simp at h

theorem initLoop_error (reg : Registry)
    (manifests : List (String × ValidManifest)) (k : String) (info : TypeInfo)
    (post : List (String × TypeInfo)) (hfn : info.filename ≠ "")
    (hk : mapLookup manifests k = none) :
    ∀ pre root,
      (∀ p ∈ pre, (p.2 : TypeInfo).filename = ""
        ∨ (mapLookup manifests p.1).isSome = true) →
      initLoop reg manifests root (pre ++ (k, info) :: post)
        = .error (initErrMsg k) := by
  intro pre
  induction pre with
  | nil =>
      intro root _
      rw [List.nil_append, initLoop, if_neg hfn, hk]
  | cons hd tl ih =>
      intro root hpre
      obtain ⟨ty, val⟩ := hd
      rw [List.cons_append, initLoop]
      rcases hpre (ty, val) (List.mem_cons_self _ _) with hempty | hsome
      · rw [if_pos hempty]
        exact ih root fun p hp => hpre p (List.mem_cons_of_mem _ hp)
      · by_cases hve : val.filename = ""
        · rw [if_pos hve]
          exact ih root fun p hp => hpre p (List.mem_cons_of_mem _ hp)
        · rw [if_neg hve]
          obtain ⟨m, hm⟩ := Option.isSome_iff_exists.mp hsome
          rw [hm]
          exact ih _ fun p hp => hpre p (List.mem_cons_of_mem _ hp)

theorem Init_eq_loop (marshal : Snapshot → Except String (List Nat))
    (reg : Registry) (t : Nat) (bs : List Nat)
    (hbs : marshal (initSnap reg t) = .ok bs) :
    Init marshal reg t =
      match initLoop reg (initManifests4 reg t (initTs reg t bs))
          (NewRoot reg t) reg with
      | .error e => .error e
      | .ok root =>
          batchSaveManifests (mapInsert (initManifests4 reg t (initTs reg t bs))
            ManifestTypeRoot (ValidManifest.root root)) := by
  unfold Init Timestamp.SetSnapshot initTs
  rw [hbs]
  rfl

theorem Init_ok_inv (marshal : Snapshot → Except String (List Nat))
    (reg : Registry) (t : Nat) (ms : List (String × ValidManifest))
    (h : Init marshal reg t = .ok ms) :
    ∃ bs ts root,
      marshal (initSnap reg t) = .ok bs
      ∧ ts.Base = (NewTimestamp reg t).Base
      ∧ ts.Meta = some [((initSnap reg t).Base.Filename reg,
          ⟨[("sha256", "TODO")], bs.length⟩)]
      ∧ initLoop reg (initManifests4 reg t ts) (NewRoot reg t) reg = .ok root
      ∧ ms = mapInsert (initManifests4 reg t ts) ManifestTypeRoot
          (ValidManifest.root root) := by
  unfold Init Timestamp.SetSnapshot at h
  cases hmar : marshal (initSnap reg t) with
  | error e =>
      rw [hmar] at h
      simp at h
  | ok bs =>
      rw [hmar] at h
      simp only [] at h
      cases hl : initLoop reg
          (initManifests4 reg t
            { NewTimestamp reg t with
                Meta := some (mapInsert (Option.getD (NewTimestamp reg t).Meta [])
                  ((initSnap reg t).Base.Filename reg)
                  ⟨[("sha256", "TODO")], bs.length⟩) })
          (NewRoot reg t) reg with
      | error e =>
          rw [hl] at h
          simp at h
      | ok root =>
          rw [hl] at h
          simp only [batchSaveManifests, Except.ok.injEq] at h
          exact ⟨bs,
            { NewTimestamp reg t with
                Meta := some (mapInsert (Option.getD (NewTimestamp reg t).Meta [])
                  ((initSnap reg t).Base.Filename reg)
                  ⟨[("sha256", "TODO")], bs.length⟩) },
            root, rfl, rfl, rfl, hl, h.symm⟩

/-! Claims about the bootstrap. -/

/-- C2 (amended): after a successful bootstrap the snapshot's ledger holds
exactly one entry per manifest that was in the manifest map when
`SetVersions` ran — the root and the index, each recorded at its version 1
— and nothing else: in particular there is no entry for the snapshot
itself (the Go map assignment runs `SetVersions` before the snapshot is
added to the map) and none for the timestamp. -/
theorem C2_snapshot_meta (marshal : Snapshot → Except String (List Nat))
    (reg : Registry) (t : Nat) (ms : List (String × ValidManifest))
    (h : Init marshal reg t = .ok ms)
    (hne : (regGet reg ManifestTypeRoot).filename
      ≠ (regGet reg ManifestTypeIndex).filename) :
    ∃ snap, mapLookup ms ManifestTypeSnapshot = some (.snapshot snap)
      ∧ snap.Meta = some [((regGet reg ManifestTypeRoot).filename, ⟨1⟩),
          ((regGet reg ManifestTypeIndex).filename, ⟨1⟩)] := by
  obtain ⟨bs, ts, root, hmar, hbase, hmeta, hloop, hms⟩ :=
    Init_ok_inv marshal reg t ms h
  subst hms
  refine ⟨initSnap reg t, ?_, ?_⟩
  · rw [mapLookup_mapInsert_ne _ _ _ _ (by decide)]
    rfl
  · have hstep : (initSnap reg t).Meta
        = some (mapInsert (mapInsert [] ((regGet reg ManifestTypeRoot).filename)
            (⟨1⟩ : FileVersion)) ((regGet reg ManifestTypeIndex).filename) ⟨1⟩) := rfl
    rw [hstep]
    simp [mapInsert, hne]

/-- C2 (counterexample): the demo bootstrap succeeds, yet the snapshot's
ledger has no entry under the snapshot's own filename, contradicting the
claimed self-entry of version 0. -/
theorem C2_counterexample :
    demoInit.isOk = true
    ∧ mapLookup (demoSnap.Meta.getD []) (demoSnap.Base.Filename demoTypes)
        = none := by
  decide

/-- C2 (witness): the amended theorem applied to the demo bootstrap run. -/
theorem C2_snapshot_meta_witness :
    (Init demoMarshal demoTypes 0 = .ok demoManifests
      ∧ (regGet demoTypes ManifestTypeRoot).filename
        ≠ (regGet demoTypes ManifestTypeIndex).filename)
    ∧ ∃ snap, mapLookup demoManifests ManifestTypeSnapshot
          = some (.snapshot snap)
        ∧ snap.Meta = some [((regGet demoTypes ManifestTypeRoot).filename, ⟨1⟩),
            ((regGet demoTypes ManifestTypeIndex).filename, ⟨1⟩)] :=
  ⟨⟨rfl, by decide⟩,
   C2_snapshot_meta demoMarshal demoTypes 0 demoManifests rfl (by decide)⟩

/-- C3: if the registry holds a kind with a non-empty filename that the
bootstrap construction steps never produce (every earlier registry entry
being either filename-less or produced), and serialization succeeds, then
`Init` fails with the error naming that kind — the `.error` result means
the batch-save step is never reached, so nothing is persisted. -/
theorem C3_registry_gap (marshal : Snapshot → Except String (List Nat))
    (reg : Registry) (t : Nat) (k : String) (info : TypeInfo)
    (pre post : List (String × TypeInfo))
    (hreg : reg = pre ++ (k, info) :: post)
    (hfn : info.filename ≠ "")
    (hk1 : k ≠ ManifestTypeRoot) (hk2 : k ≠ ManifestTypeIndex)
    (hk3 : k ≠ ManifestTypeSnapshot) (hk4 : k ≠ ManifestTypeTimestamp)
    (hpre : ∀ p ∈ pre, (p.2 : TypeInfo).filename = ""
      ∨ p.1 = ManifestTypeRoot ∨ p.1 = ManifestTypeIndex
      ∨ p.1 = ManifestTypeSnapshot ∨ p.1 = ManifestTypeTimestamp)
    (hmar : ∀ s, ∃ bs, marshal s = .ok bs) :
    Init marshal reg t = .error (initErrMsg k) := by
  subst hreg
  obtain ⟨bs, hbs⟩ := hmar (initSnap (pre ++ (k, info) :: post) t)
  rw [Init_eq_loop marshal (pre ++ (k, info) :: post) t bs hbs]
  rw [initLoop_error (pre ++ (k, info) :: post)
    (initManifests4 (pre ++ (k, info) :: post) t
      (initTs (pre ++ (k, info) :: post) t bs)) k info post hfn
    (initManifests4_lookup_none _ _ _ _ hk1 hk2 hk3 hk4) pre
    (NewRoot (pre ++ (k, info) :: post) t)
    (fun p hp => by
      rcases hpre p hp with he | hk'
      · exact Or.inl he
      · exact Or.inr (initManifests4_lookup_isSome _ _ _ _ hk'))]

/-- C3 (witness): the theorem applied to the demo registry extended with a
fifth kind `"extra"` that bootstrap never produces. -/
theorem C3_registry_gap_witness :
    (⟨"extra.json", 5, 1⟩ : TypeInfo).filename ≠ ""
    ∧ Init demoMarshal (demoTypes ++ [("extra", ⟨"extra.json", 5, 1⟩)]) 0
        = .error (initErrMsg "extra") :=
  ⟨by decide,
   C3_registry_gap demoMarshal (demoTypes ++ [("extra", ⟨"extra.json", 5, 1⟩)])
     0 "extra" ⟨"extra.json", 5, 1⟩ demoTypes [] rfl (by decide) (by decide)
     (by decide) (by decide) (by decide) (by decide)
     (fun s => ⟨s.marshalJson.toList.map Char.toNat, rfl⟩)⟩

/-- C4: after a successful bootstrap over a registry with duplicate-free
kind names, the root's role map holds, for every registry kind with a
non-empty filename (root itself included), exactly one entry keyed by that
kind, with url `"/" + filename` and the registry threshold; every role
entry arises from such a kind — so filename-less kinds get none — and the
role keys are duplicate-free. -/
theorem C4_root_roles (marshal : Snapshot → Except String (List Nat))
    (reg : Registry) (t : Nat) (ms : List (String × ValidManifest))
    (h : Init marshal reg t = .ok ms)
    (hnd : (reg.map Prod.fst).Nodup) :
    ∃ root, mapLookup ms ManifestTypeRoot = some (.root root)
      ∧ (∀ k info, (k, info) ∈ reg → info.filename ≠ "" →
          mapLookup (root.Roles.getD []) k
            = some ⟨"/" ++ info.filename, info.threshold, []⟩)
      ∧ (∀ p ∈ root.Roles.getD [],
          ∃ info, (p.1, info) ∈ reg ∧ info.filename ≠ "")
      ∧ ((root.Roles.getD []).map Prod.fst).Nodup := by
  obtain ⟨bs, ts, root, hmar, hbase, hmeta, hloop, hms⟩ :=
    Init_ok_inv marshal reg t ms h
  subst hms
  have hty : ∀ p ∈ initManifests4 reg t ts, p.2.Base.Ty = p.1 :=
    initManifests4_ty reg t ts (by rw [hbase]; rfl)
  refine ⟨root, mapLookup_mapInsert_self .., ?_, ?_, ?_⟩
  · intro k info hmem hfn
    rw [initLoop_lookup_mem reg _ hty reg (NewRoot reg t) root hloop hnd
      k info hmem hfn]
    rw [regGet_eq_of_mem_nodup reg k info hmem hnd]
  · intro p hp
    rcases initLoop_roles_subset reg _ hty reg (NewRoot reg t) root hloop p hp
      with hin | hex
    · simp [NewRoot] at hin
    · exact hex
  · exact initLoop_roles_nodup reg _ reg (NewRoot reg t) root hloop
      (by simp [NewRoot])

/-- C4 (witness): the theorem applied to the demo bootstrap run. -/
theorem C4_root_roles_witness :
    (Init demoMarshal demoTypes 0 = .ok demoManifests
      ∧ (demoTypes.map Prod.fst).Nodup)
    ∧ ∃ root, mapLookup demoManifests ManifestTypeRoot = some (.root root)
        ∧ (∀ k info, (k, info) ∈ demoTypes → info.filename ≠ "" →
            mapLookup (root.Roles.getD []) k
              = some ⟨"/" ++ info.filename, info.threshold, []⟩)
        ∧ (∀ p ∈ root.Roles.getD [],
            ∃ info, (p.1, info) ∈ demoTypes ∧ info.filename ≠ "")
        ∧ ((root.Roles.getD []).map Prod.fst).Nodup :=
  ⟨⟨rfl, by decide⟩,
   C4_root_roles demoMarshal demoTypes 0 demoManifests rfl (by decide)⟩

/-- C5: every successful bootstrap yields manifests with root, index and
timestamp at version 1 and the snapshot at version 0. -/
theorem C5_versions (marshal : Snapshot → Except String (List Nat))
    (reg : Registry) (t : Nat) (ms : List (String × ValidManifest))
    (h : Init marshal reg t = .ok ms) :
    ((mapLookup ms ManifestTypeRoot).map fun m => m.Base.Version) = some 1
    ∧ ((mapLookup ms ManifestTypeIndex).map fun m => m.Base.Version) = some 1
    ∧ ((mapLookup ms ManifestTypeSnapshot).map fun m => m.Base.Version) = some 0
    ∧ ((mapLookup ms ManifestTypeTimestamp).map fun m => m.Base.Version) = some 1 := by
  obtain ⟨bs, ts, root, hmar, hbase, hmeta, hloop, hms⟩ :=
    Init_ok_inv marshal reg t ms h
  subst hms
  refine ⟨?_, ?_, ?_, ?_⟩
  · rw [mapLookup_mapInsert_self]
    show some root.Base.Version = some 1
    rw [initLoop_base reg _ reg (NewRoot reg t) root hloop]
    rfl
  · rw [mapLookup_mapInsert_ne _ _ _ _ (by decide)]
    rfl
  · rw [mapLookup_mapInsert_ne _ _ _ _ (by decide)]
    rfl
  · rw [mapLookup_mapInsert_ne _ _ _ _ (by decide)]
    show some ts.Base.Version = some 1
    rw [hbase]
    rfl

/-- C5 (witness): the theorem applied to the demo bootstrap run. -/
theorem C5_versions_witness :
    Init demoMarshal demoTypes 0 = .ok demoManifests
    ∧ ((mapLookup demoManifests ManifestTypeRoot).map
        fun m => m.Base.Version) = some 1
    ∧ ((mapLookup demoManifests ManifestTypeIndex).map
        fun m => m.Base.Version) = some 1
    ∧ ((mapLookup demoManifests ManifestTypeSnapshot).map
        fun m => m.Base.Version) = some 0
    ∧ ((mapLookup demoManifests ManifestTypeTimestamp).map
        fun m => m.Base.Version) = some 1 :=
  ⟨rfl, C5_versions demoMarshal demoTypes 0 demoManifests rfl⟩

/-- C6: after a successful bootstrap the timestamp's `meta` holds exactly
one entry, keyed by the snapshot's filename, whose recorded length is the
exact byte length of the snapshot's serialization at the moment
`SetSnapshot` ran. -/
theorem C6_timestamp_meta (marshal : Snapshot → Except String (List Nat))
    (reg : Registry) (t : Nat) (ms : List (String × ValidManifest))
    (h : Init marshal reg t = .ok ms) :
    ∃ snap ts bs, mapLookup ms ManifestTypeSnapshot = some (.snapshot snap)
      ∧ mapLookup ms ManifestTypeTimestamp = some (.timestamp ts)
      ∧ marshal snap = .ok bs
      ∧ ts.Meta = some [(snap.Base.Filename reg,
          ⟨[("sha256", "TODO")], bs.length⟩)] := by
  obtain ⟨bs, ts, root, hmar, hbase, hmeta, hloop, hms⟩ :=
    Init_ok_inv marshal reg t ms h
  subst hms
  refine ⟨initSnap reg t, ts, bs, ?_, ?_, hmar, hmeta⟩
  · rw [mapLookup_mapInsert_ne _ _ _ _ (by decide)]
    rfl
  · rw [mapLookup_mapInsert_ne _ _ _ _ (by decide)]
    rfl

/-- C6 (witness): the theorem applied to the demo bootstrap run. -/
theorem C6_timestamp_meta_witness :
    Init demoMarshal demoTypes 0 = .ok demoManifests
    ∧ ∃ snap ts bs, mapLookup demoManifests ManifestTypeSnapshot
          = some (.snapshot snap)
        ∧ mapLookup demoManifests ManifestTypeTimestamp = some (.timestamp ts)
        ∧ demoMarshal snap = .ok bs
        ∧ ts.Meta = some [(snap.Base.Filename demoTypes,
            ⟨[("sha256", "TODO")], bs.length⟩)] :=
  ⟨rfl, C6_timestamp_meta demoMarshal demoTypes 0 demoManifests rfl⟩

/-- C9: on the demo bootstrap, bumping the index version from 1 to 2 and
rebuilding the snapshot via `SetVersions` does record version 2 under the
index's filename — but re-running `SetSnapshot` against the changed
snapshot records the very same placeholder hash `{"sha256": "TODO"}` as the
original run, not a different one: the recorded digest is not
content-sensitive, contradicting the claim (the source stubs the hash with
a `TODO`). -/
theorem C9_hash_not_content_sensitive :
    mapLookup (demoSnap1.Meta.getD []) "index.json" = some ⟨2⟩
    ∧ (mapLookup (demoTs.Meta.getD []) "snapshot.json").map FileHash.Hashes
        = some [("sha256", "TODO")]
    ∧ (mapLookup (demoTs1.Meta.getD []) "snapshot.json").map FileHash.Hashes
        = some [("sha256", "TODO")]
    ∧ (mapLookup (demoTs1.Meta.getD []) "snapshot.json").map FileHash.Hashes
        = (mapLookup (demoTs.Meta.getD []) "snapshot.json").map FileHash.Hashes := by
  decide

end Manifest
